import Mathlib

set_option maxHeartbeats 1000000

/-! Shallow embedding of the is-online library (src/lib.rs): IP address and
CIDR parsing, subnet expansion, host resolution and TCP reachability
checking.  Network I/O and DNS lookups are passed in as explicit
environment parameters; machine integers (u32, u128, u16) are modelled as
Nat values kept in range by the parsers that produce them. -/

/-- An IP address: the v4 payload is the u32 value, the v6 payload the u128
value of the address. -/
inductive IpAddr where
  | v4 (a : Nat)
  | v6 (a : Nat)
deriving DecidableEq

/-- Rust IpAddr::is_ipv4. -/
def IpAddr.is_ipv4 : IpAddr → Bool
  | .v4 _ => true
  | .v6 _ => false

/-- Rust IpAddr::is_ipv6. -/
def IpAddr.is_ipv6 : IpAddr → Bool
  | .v4 _ => false
  | .v6 _ => true

/-- A socket address: IP address plus TCP port. -/
structure SocketAddr where
  ip : IpAddr
  port : Nat
deriving DecidableEq

/-- The kind of an io Error: TimedOut, or anything else. -/
inductive IOErrorKind where
  | timedOut
  | other (code : Nat)
deriving DecidableEq

/-- An io Error, identified by its kind. -/
structure IOError where
  kind : IOErrorKind
deriving DecidableEq

/-- Result of one TcpStream connect_timeout call as this library observes
it: on success the stream is only ever shut down again, so the model
records just the outcome of that shutdown call (none = shutdown succeeded,
some e = shutdown failed with e). -/
inductive ConnectResult where
  | ok (shutdownResult : Option IOError)
  | err (e : IOError)
deriving DecidableEq

/-- The network environment: what connect_timeout returns for a given
socket address and timeout. -/
abbrev NetEnv := SocketAddr → Nat → ConnectResult

/-- Probe outcome in the sense of the spec: Open, Closed (= the connect
attempt timed out) or Error (= any other connect failure). -/
inductive ProbeOutcome where
  | opened
  | closed
  | errored
deriving DecidableEq, BEq

/-- Classify a connect result as a spec-level probe outcome. -/
def outcomeOf : ConnectResult → ProbeOutcome
  | .ok _ => .opened
  | .err e => if e.kind = .timedOut then .closed else .errored

/-- is_port_online (src/lib.rs lines 38-53): connect with a timeout; a
TimedOut error becomes Ok false, any other error is returned as an error;
on success the shutdown result is discarded and the result is Ok true. -/
def is_port_online (net : NetEnv) (addr : SocketAddr) (timeout : Nat) :
    Except IOError Bool :=
  match net addr timeout with
  | .err e => if e.kind = .timedOut then .ok false else .error e
  | .ok _ => .ok true

/-- A host: a name and the list of addresses it resolved to
(src/lib.rs lines 58-61). -/
structure Host where
  name : String
  addresses : List IpAddr
deriving DecidableEq

/-- Address family filter (src/lib.rs lines 155-164). -/
inductive IpProtocol where
  | Both
  | V4
  | V6
deriving DecidableEq

/-- Combination strategy (src/lib.rs lines 168-174). -/
inductive CheckStrategy where
  | Any
  | All
deriving DecidableEq

/-- The checker configuration (src/lib.rs lines 69-74); the timeout is an
abstract duration value. -/
structure TcpPortCheck where
  port : Nat
  protocol : IpProtocol
  timeout : Nat
  strategy : CheckStrategy

/-- The address-family filter step of is_online (src/lib.rs lines 113-117). -/
def TcpPortCheck.filtered (c : TcpPortCheck) (host : Host) : List IpAddr :=
  match c.protocol with
  | .Both => host.addresses
  | .V4 => host.addresses.filter IpAddr.is_ipv4
  | .V6 => host.addresses.filter IpAddr.is_ipv6

/-- is_open_port (src/lib.rs lines 141-150): true iff connect_timeout
succeeded; the shutdown result is discarded. -/
def TcpPortCheck.is_open_port (c : TcpPortCheck) (net : NetEnv) (addr : IpAddr) : Bool :=
  match net ⟨addr, c.port⟩ c.timeout with
  | .ok _ => true
  | .err _ => false

/-- is_online (src/lib.rs lines 112-129): filter the addresses by family,
return false on an empty filtered list, otherwise combine the per-address
probes with any or all according to the strategy. -/
def TcpPortCheck.is_online (c : TcpPortCheck) (net : NetEnv) (host : Host) : Bool :=
  let addrs := c.filtered host
  if addrs.isEmpty then false
  else
    match c.strategy with
    | .Any => addrs.any (c.is_open_port net)
    | .All => addrs.all (c.is_open_port net)

/-- collect_online (src/lib.rs lines 132-138). -/
def TcpPortCheck.collect_online (c : TcpPortCheck) (net : NetEnv) (hosts : List Host) :
    List Host :=
  hosts.filter (fun h => c.is_online net h)

/-- ASCII decimal digit test, by code point. -/
def isDecDigitB (c : Char) : Bool := decide (48 ≤ c.toNat ∧ c.toNat ≤ 57)

/-- ASCII hexadecimal digit test, by code point. -/
def isHexDigitB (c : Char) : Bool :=
  decide ((48 ≤ c.toNat ∧ c.toNat ≤ 57) ∨ (97 ≤ c.toNat ∧ c.toNat ≤ 102) ∨
    (65 ≤ c.toNat ∧ c.toNat ≤ 70))

/-- Value of a decimal digit string. -/
def decVal (cs : List Char) : Nat := cs.foldl (fun a c => a * 10 + (c.toNat - 48)) 0

/-- Value of one hexadecimal digit. -/
def hexDigitVal (c : Char) : Nat :=
  if c.toNat ≤ 57 then c.toNat - 48 else if 97 ≤ c.toNat then c.toNat - 87 else c.toNat - 55

/-- Value of a hexadecimal digit string. -/
def hexVal (cs : List Char) : Nat := cs.foldl (fun a c => a * 16 + hexDigitVal c) 0

/-- Split a character list at every occurrence of a separator character
(the list of pieces, separators dropped; n separators give n+1 pieces). -/
def splitOnChar (sep : Char) : List Char → List (List Char)
  | [] => [[]]
  | c :: rest =>
    if c = sep then [] :: splitOnChar sep rest
    else
      match splitOnChar sep rest with
      | [] => [[c]]
      | g :: gs => (c :: g) :: gs

/-- Split a character list at every occurrence of two consecutive colons,
scanning left to right without overlap. -/
def splitOnDoubleColon : List Char → List (List Char)
  | [] => [[]]
  | [c] => [[c]]
  | c1 :: c2 :: rest =>
    if c1 = ':' ∧ c2 = ':' then [] :: splitOnDoubleColon rest
    else
      match splitOnDoubleColon (c2 :: rest) with
      | [] => [[c1]]
      | g :: gs => (c1 :: g) :: gs

/-- One dotted-quad component in the style of the Rust std parser: decimal
digits, no leading zero, value at most 255. -/
def parseOctetChars (cs : List Char) : Option Nat :=
  if cs ≠ [] ∧ (∀ c ∈ cs, isDecDigitB c) ∧ (cs.length = 1 ∨ cs.head? ≠ some '0') ∧
      decVal cs ≤ 255
  then some (decVal cs) else none

/-- Rust Ipv4Addr from_str: four dot-separated octets. -/
def parseIpv4Chars (cs : List Char) : Option Nat :=
  match splitOnChar '.' cs with
  | [p1, p2, p3, p4] => do
    let a ← parseOctetChars p1
    let b ← parseOctetChars p2
    let c ← parseOctetChars p3
    let d ← parseOctetChars p4
    pure (((a * 256 + b) * 256 + c) * 256 + d)
  | _ => none

/-- One IPv6 group: one to four hexadecimal digits (hence a u16 value). -/
def parseHexGroupChars (cs : List Char) : Option Nat :=
  if cs ≠ [] ∧ cs.length ≤ 4 ∧ (∀ c ∈ cs, isHexDigitB c) then some (hexVal cs) else none

/-- Parse colon-separated IPv6 groups; the final piece may be an embedded
dotted-quad IPv4 address (two groups) when v4Allowed is set, matching the
Rust std parser which only accepts an embedded IPv4 part in trailing
position and never in the part before a double colon. -/
def parseV6Groups (v4Allowed : Bool) : List (List Char) → Option (List Nat)
  | [] => some []
  | [piece] =>
    if '.' ∈ piece then
      if v4Allowed then (parseIpv4Chars piece).map (fun a => [a / 65536, a % 65536])
      else none
    else (parseHexGroupChars piece).map (fun g => [g])
  | p :: q :: rest => do
    let g ← parseHexGroupChars p
    let gs ← parseV6Groups v4Allowed (q :: rest)
    pure (g :: gs)

/-- Parse one side of a double colon (an empty side contributes no groups). -/
def parseV6Side (v4Allowed : Bool) (cs : List Char) : Option (List Nat) :=
  if cs = [] then some [] else parseV6Groups v4Allowed (splitOnChar ':' cs)

/-- Combine 16-bit groups into the u128 value of an IPv6 address. -/
def combineGroups (gs : List Nat) : Nat := gs.foldl (fun a g => a * 65536 + g) 0

/-- Rust Ipv6Addr from_str: eight groups, or a double colon standing for at
least one zero group (so with a double colon at most seven explicit
groups), with an optional embedded trailing IPv4 part. -/
def parseIpv6Chars (cs : List Char) : Option Nat :=
  match splitOnDoubleColon cs with
  | [whole] =>
    match parseV6Side true whole with
    | some gs => if gs.length = 8 then some (combineGroups gs) else none
    | none => none
  | [pre, post] =>
    match parseV6Side false pre, parseV6Side true post with
    | some gh, some gt =>
      if gh.length + gt.length ≤ 7 then
        some (combineGroups (gh ++ List.replicate (8 - gh.length - gt.length) 0 ++ gt))
      else none
    | _, _ => none
  | _ => none

/-- Rust IpAddr from_str: first IPv4, then IPv6. -/
def IpAddr.from_str (s : String) : Option IpAddr :=
  match parseIpv4Chars s.data with
  | some a => some (.v4 a)
  | none =>
    match parseIpv6Chars s.data with
    | some a => some (.v6 a)
    | none => none

/-- resolve_hostname (src/lib.rs lines 252-267).  The dns parameter models
what to_socket_addrs yields for the name, already mapped to plain IP
addresses: none for a lookup error, some addrs for a successful lookup. -/
def resolve_hostname (dns : String → Option (List IpAddr)) (name : String) :
    Option (List IpAddr) :=
  match IpAddr.from_str name with
  | some a => some [a]
  | none => dns name

/-- Host FromStr (src/lib.rs lines 176-198): an IP literal becomes a
single-address host, otherwise the name is resolved; none models
HostParseError. -/
def Host.from_str (dns : String → Option (List IpAddr)) (s : String) : Option Host :=
  match IpAddr.from_str s with
  | some a => some { name := s, addresses := [a] }
  | none =>
    match resolve_hostname dns s with
    | some addrs => some { name := s, addresses := addrs }
    | none => none

/-- resolve_hosts (src/lib.rs lines 201-212): keep the hosts that resolve,
drop the rest. -/
def resolve_hosts (dns : String → Option (List IpAddr)) (hosts : List String) : List Host :=
  hosts.filterMap (Host.from_str dns)

/-- An IPv4 network as in the ipnet crate: an address (which may have host
bits set) and a prefix length of at most 32. -/
structure Ipv4Net where
  addr : Nat
  prefixLen : Nat
deriving DecidableEq

/-- An IPv6 network as in the ipnet crate. -/
structure Ipv6Net where
  addr : Nat
  prefixLen : Nat
deriving DecidableEq

/-- A prefix length: decimal digits, no leading zero, value at most maxLen. -/
def parsePrefixChars (maxLen : Nat) (cs : List Char) : Option Nat :=
  if cs ≠ [] ∧ (∀ c ∈ cs, isDecDigitB c) ∧ (cs.length = 1 ∨ cs.head? ≠ some '0') ∧
      decVal cs ≤ maxLen
  then some (decVal cs) else none

/-- ipnet Ipv4Net from_str: address, slash, prefix length. -/
def Ipv4Net.from_str (s : String) : Option Ipv4Net :=
  match splitOnChar '/' s.data with
  | [a, p] => do
    let addr ← parseIpv4Chars a
    let pl ← parsePrefixChars 32 p
    pure { addr := addr, prefixLen := pl }
  | _ => none

/-- ipnet Ipv6Net from_str: address, slash, prefix length. -/
def Ipv6Net.from_str (s : String) : Option Ipv6Net :=
  match splitOnChar '/' s.data with
  | [a, p] => do
    let addr ← parseIpv6Chars a
    let pl ← parsePrefixChars 128 p
    pure { addr := addr, prefixLen := pl }
  | _ => none

/-- Number of addresses of an IPv4 network. -/
def v4size (n : Ipv4Net) : Nat := 2 ^ (32 - n.prefixLen)

/-- Network address (host bits cleared). -/
def v4network (n : Ipv4Net) : Nat := n.addr / v4size n * v4size n

/-- Broadcast address (host bits set). -/
def v4broadcast (n : Ipv4Net) : Nat := v4network n + v4size n - 1

/-- The ascending inclusive range of addresses from lo to hi. -/
def rangeIncl (lo hi : Nat) : List Nat := (List.range (hi + 1 - lo)).map (fun i => lo + i)

/-- ipnet Ipv4Net hosts(): for a prefix length below 31 the network and
broadcast addresses are excluded, otherwise the full range is returned. -/
def Ipv4Net.hosts (n : Ipv4Net) : List Nat :=
  if n.prefixLen < 31 then rangeIncl (v4network n + 1) (v4broadcast n - 1)
  else rangeIncl (v4network n) (v4broadcast n)

/-- Number of addresses of an IPv6 network. -/
def v6size (n : Ipv6Net) : Nat := 2 ^ (128 - n.prefixLen)

/-- Network address (host bits cleared). -/
def v6network (n : Ipv6Net) : Nat := n.addr / v6size n * v6size n

/-- Highest address of the network. -/
def v6broadcast (n : Ipv6Net) : Nat := v6network n + v6size n - 1

/-- ipnet Ipv6Net hosts(): the full range of the network, no exclusions. -/
def Ipv6Net.hosts (n : Ipv6Net) : List Nat := rangeIncl (v6network n) (v6broadcast n)

/-- Rust Ipv4Addr Display: dotted decimal. -/
def ipv4ToString (a : Nat) : String :=
  toString (a / 16777216 % 256) ++ "." ++ toString (a / 65536 % 256) ++ "." ++
    toString (a / 256 % 256) ++ "." ++ toString (a % 256)

/-- The i-th 16-bit segment of an IPv6 address (segment 0 is the most
significant). -/
def v6seg (a i : Nat) : Nat := a / 2 ^ (16 * (7 - i)) % 65536

/-- Lowercase hexadecimal digits of a number. -/
def hexStr (n : Nat) : String := (Nat.toDigits 16 n).asString

/-- Join strings with single colons. -/
def joinColon : List String → String
  | [] => ""
  | [s] => s
  | s :: g :: rest => s ++ ":" ++ joinColon (g :: rest)

/-- A run of zero segments: start index and length. -/
structure ZeroSpan where
  start : Nat
  len : Nat
deriving DecidableEq

/-- The longest (leftmost on ties) run of zero segments, as in the Rust std
Ipv6Addr Display implementation. -/
def findZeroRun (segs : List Nat) : ZeroSpan :=
  (segs.foldl
    (fun st seg =>
      match st with
      | (cur, best, i) =>
        if seg = 0 then
          let cur2 : ZeroSpan :=
            if cur.len = 0 then { start := i, len := 1 }
            else { start := cur.start, len := cur.len + 1 }
          let best2 := if best.len < cur2.len then cur2 else best
          (cur2, best2, i + 1)
        else (({ start := 0, len := 0 } : ZeroSpan), best, i + 1))
    (({ start := 0, len := 0 } : ZeroSpan), ({ start := 0, len := 0 } : ZeroSpan), 0)
    : ZeroSpan × ZeroSpan × Nat).2.1

/-- Rust Ipv6Addr Display: an IPv4-mapped address prints as colon-colon-ffff
followed by the dotted quad; otherwise the longest run of at least two zero
segments (leftmost on ties) is compressed to a double colon. -/
def ipv6ToString (a : Nat) : String :=
  let segs := (List.range 8).map (v6seg a)
  if segs.take 6 = [0, 0, 0, 0, 0, 65535] then "::ffff:" ++ ipv4ToString (a % 4294967296)
  else
    let span := findZeroRun segs
    if 1 < span.len then
      joinColon ((segs.take span.start).map hexStr) ++ "::" ++
        joinColon ((segs.drop (span.start + span.len)).map hexStr)
    else joinColon (segs.map hexStr)

/-- The body of the expand_subnets loop (src/lib.rs lines 219-245) for one
entry: an IPv4 network expands to its hosts() minus the unspecified and
limited-broadcast addresses, an IPv6 network to its hosts() minus the
unspecified address, anything else passes through. -/
def expandEntry (s : String) : List String :=
  match Ipv4Net.from_str s with
  | some net => (net.hosts.filter (fun a => !(a == 0 || a == 4294967295))).map ipv4ToString
  | none =>
    match Ipv6Net.from_str s with
    | some net => (net.hosts.filter (fun a => !(a == 0))).map ipv6ToString
    | none => [s]

/-- expand_subnets (src/lib.rs lines 216-248). -/
def expand_subnets : List String → List String
  | [] => []
  | s :: rest => expandEntry s ++ expand_subnets rest

/-- Modelled from the words of the spec for C5: the usable hosts of an IPv4
network are, for a prefix length of at most 30, the addresses strictly
between the network address (all-zero host bits) and the broadcast address
(all-one host bits), in ascending order; a 31- or 32-prefix network yields
all of its addresses. -/
def specV4Usable (n : Ipv4Net) : List Nat :=
  if n.prefixLen ≤ 30 then rangeIncl (v4network n + 1) (v4broadcast n - 1)
  else rangeIncl (v4network n) (v4broadcast n)

/-- Modelled from the words of the spec for C7: every address of an IPv6
network, in ascending order. -/
def specV6Addresses (n : Ipv6Net) : List Nat :=
  (List.range (2 ^ (128 - n.prefixLen))).map (fun i => v6network n + i)

/-- Entries whose whole expansion is filtered away: a network consisting of
exactly the IPv4 unspecified address, exactly the IPv4 limited-broadcast
address, or exactly the IPv6 unspecified address. -/
def degenerateEntry (s : String) : Bool :=
  match Ipv4Net.from_str s with
  | some n => n.prefixLen == 32 && (v4network n == 0 || v4network n == 4294967295)
  | none =>
    match Ipv6Net.from_str s with
    | some n => n.prefixLen == 128 && v6network n == 0
    | none => false

/-! Helper lemmas. -/

theorem is_open_port_eq (c : TcpPortCheck) (net : NetEnv) :
    c.is_open_port net = fun a => outcomeOf (net ⟨a, c.port⟩ c.timeout) == .opened := by
  funext a
  unfold TcpPortCheck.is_open_port outcomeOf
  cases net ⟨a, c.port⟩ c.timeout with
  | ok sd => rfl
  | err e =>
    show false = ((if e.kind = IOErrorKind.timedOut then ProbeOutcome.closed
      else ProbeOutcome.errored) == ProbeOutcome.opened)
    by_cases hk : e.kind = .timedOut
    · rw [if_pos hk]; decide
    · rw [if_neg hk]; decide

theorem mem_rangeIncl {lo hi a : Nat} : a ∈ rangeIncl lo hi ↔ lo ≤ a ∧ a ≤ hi := by
  unfold rangeIncl
  simp only [List.mem_map, List.mem_range]
  constructor
  · rintro ⟨i, hilt, rfl⟩; omega
  · rintro ⟨h1, h2⟩; exact ⟨a - lo, by omega, by omega⟩

theorem rangeIncl_pairwise (lo hi : Nat) : (rangeIncl lo hi).Pairwise (· < ·) := by
  unfold rangeIncl
  exact (List.pairwise_lt_range _).map _ (fun a b hab => by omega)

theorem parseOctetChars_le {cs : List Char} {v : Nat} (h : parseOctetChars cs = some v) :
    v ≤ 255 := by
  unfold parseOctetChars at h
  split at h
  · rename_i hc
    injection h with h
    omega
  · cases h

theorem parseOctetChars_digits {cs : List Char} {v : Nat} (h : parseOctetChars cs = some v) :
    ∀ c ∈ cs, isDecDigitB c := by
  unfold parseOctetChars at h
  split at h
  · rename_i hc
    exact hc.2.1
  · cases h

theorem parsePrefixChars_le {maxLen : Nat} {cs : List Char} {v : Nat}
    (h : parsePrefixChars maxLen cs = some v) : v ≤ maxLen := by
  unfold parsePrefixChars at h
  split at h
  · rename_i hc
    injection h with h
    omega
  · cases h

theorem parseIpv4Chars_lt {cs : List Char} {a : Nat} (h : parseIpv4Chars cs = some a) :
    a < 4294967296 := by
  unfold parseIpv4Chars at h
  split at h
  · simp only [bind, Option.bind_eq_some, Option.pure_def, Option.some.injEq] at h
    obtain ⟨x, hx, y, hy, z, hz, w, hw, rfl⟩ := h
    have h1 := parseOctetChars_le hx
    have h2 := parseOctetChars_le hy
    have h3 := parseOctetChars_le hz
    have h4 := parseOctetChars_le hw
    omega
  · cases h

theorem ipv4NetFromStrBounds {s : String} {n : Ipv4Net}
    (h : Ipv4Net.from_str s = some n) : n.addr < 4294967296 ∧ n.prefixLen ≤ 32 := by
  unfold Ipv4Net.from_str at h
  split at h
  · simp only [bind, Option.bind_eq_some, Option.pure_def, Option.some.injEq] at h
    obtain ⟨x, hx, y, hy, hn⟩ := h
    subst hn
    exact ⟨parseIpv4Chars_lt hx, parsePrefixChars_le hy⟩
  · cases h

theorem ipv6NetFromStrBounds {s : String} {n : Ipv6Net}
    (h : Ipv6Net.from_str s = some n) : n.prefixLen ≤ 128 := by
  unfold Ipv6Net.from_str at h
  split at h
  · simp only [bind, Option.bind_eq_some, Option.pure_def, Option.some.injEq] at h
    obtain ⟨x, hx, y, hy, hn⟩ := h
    subst hn
    exact parsePrefixChars_le hy
  · cases h

theorem v4network_add_size_le {n : Ipv4Net} (ha : n.addr < 4294967296)
    (hp : n.prefixLen ≤ 32) : v4network n + v4size n ≤ 4294967296 := by
  unfold v4network v4size
  have hdvd : (2 : Nat) ^ (32 - n.prefixLen) ∣ 2 ^ 32 := pow_dvd_pow 2 (by omega)
  have hn : n.addr < 2 ^ 32 := by norm_num; omega
  have hlt : n.addr / 2 ^ (32 - n.prefixLen) < 2 ^ 32 / 2 ^ (32 - n.prefixLen) :=
    Nat.div_lt_div_of_lt_of_dvd hdvd hn
  have h2 : (n.addr / 2 ^ (32 - n.prefixLen) + 1) * 2 ^ (32 - n.prefixLen) ≤
      2 ^ 32 / 2 ^ (32 - n.prefixLen) * 2 ^ (32 - n.prefixLen) :=
    Nat.mul_le_mul_right _ hlt
  rw [Nat.div_mul_cancel hdvd] at h2
  have key : n.addr / 2 ^ (32 - n.prefixLen) * 2 ^ (32 - n.prefixLen) + 2 ^ (32 - n.prefixLen)
      = (n.addr / 2 ^ (32 - n.prefixLen) + 1) * 2 ^ (32 - n.prefixLen) := by ring
  rw [key]
  calc (n.addr / 2 ^ (32 - n.prefixLen) + 1) * 2 ^ (32 - n.prefixLen) ≤ 2 ^ 32 := h2
    _ = 4294967296 := by norm_num

theorem splitOnChar_eq_self {sep : Char} {cs : List Char} (h : sep ∉ cs) :
    splitOnChar sep cs = [cs] := by
  induction cs with
  | nil => rfl
  | cons c rest ih =>
    have hc : ¬ c = sep := by rintro rfl; exact h (List.mem_cons_self _ _)
    have hr : sep ∉ rest := fun hm => h (List.mem_cons_of_mem _ hm)
    unfold splitOnChar
    rw [if_neg hc, ih hr]

theorem mem_splitOnChar {sep c : Char} {cs : List Char} (h : c ∈ cs) :
    c = sep ∨ ∃ p ∈ splitOnChar sep cs, c ∈ p := by
  induction cs with
  | nil => cases h
  | cons d rest ih =>
    by_cases hd : d = sep
    · subst hd
      rcases List.mem_cons.mp h with rfl | hm
      · exact Or.inl rfl
      · rcases ih hm with h1 | ⟨p, hp, hcp⟩
        · exact Or.inl h1
        · refine Or.inr ⟨p, ?_, hcp⟩
          unfold splitOnChar
          rw [if_pos rfl]
          exact List.mem_cons_of_mem _ hp
    · rcases List.mem_cons.mp h with rfl | hm
      · right
        unfold splitOnChar
        rw [if_neg hd]
        cases hs : splitOnChar sep rest with
        | nil => exact ⟨[c], by simp, by simp⟩
        | cons g gs => exact ⟨c :: g, by simp, by simp⟩
      · rcases ih hm with h1 | ⟨p, hp, hcp⟩
        · exact Or.inl h1
        · right
          unfold splitOnChar
          rw [if_neg hd]
          cases hs : splitOnChar sep rest with
          | nil => rw [hs] at hp; cases hp
          | cons g gs =>
            rw [hs] at hp
            rcases List.mem_cons.mp hp with rfl | hp2
            · exact ⟨d :: p, List.mem_cons_self _ _, List.mem_cons_of_mem _ hcp⟩
            · exact ⟨p, List.mem_cons_of_mem _ hp2, hcp⟩

theorem sep_mem_of_splitOnChar {sep : Char} {cs : List Char} {p q : List Char}
    {rest : List (List Char)} (h : splitOnChar sep cs = p :: q :: rest) : sep ∈ cs := by
  induction cs generalizing p q rest with
  | nil => simp [splitOnChar] at h
  | cons c t ih =>
    by_cases hc : c = sep
    · subst hc; exact List.mem_cons_self _ _
    · unfold splitOnChar at h
      rw [if_neg hc] at h
      cases hs : splitOnChar sep t with
      | nil =>
        rw [hs] at h
        injection h with h1 h2
        cases h2
      | cons g gs =>
        rw [hs] at h
        injection h with h1 h2
        subst h2
        exact List.mem_cons_of_mem _ (ih hs)

theorem splitOnDoubleColon_eq_self :
    ∀ (cs : List Char), ':' ∉ cs → splitOnDoubleColon cs = [cs]
  | [], _ => rfl
  | [c], _ => rfl
  | c1 :: c2 :: rest, h => by
    have h1 : ¬ c1 = ':' := fun hc => h (hc ▸ List.mem_cons_self _ _)
    have h2 : ':' ∉ c2 :: rest := fun hm => h (List.mem_cons_of_mem _ hm)
    unfold splitOnDoubleColon
    rw [if_neg (by rintro ⟨hc, _⟩; exact h1 hc)]
    rw [splitOnDoubleColon_eq_self (c2 :: rest) h2]

theorem parseIpv4Chars_excl_v6 {cs : List Char} {a : Nat}
    (h : parseIpv4Chars cs = some a) : parseIpv6Chars cs = none := by
  have h0 := h
  unfold parseIpv4Chars at h
  split at h
  · rename_i p1 p2 p3 p4 hs
    simp only [bind, Option.bind_eq_some, Option.pure_def, Option.some.injEq] at h
    obtain ⟨x, hx, y, hy, z, hz, w, hw, _⟩ := h
    have hchars : ∀ c ∈ cs, c = '.' ∨ isDecDigitB c := by
      intro c hc
      rcases @mem_splitOnChar '.' c cs hc with h1 | ⟨p, hp, hcp⟩
      · exact Or.inl h1
      · rw [hs] at hp
        simp only [List.mem_cons, List.not_mem_nil, or_false] at hp
        rcases hp with rfl | rfl | rfl | rfl
        · exact Or.inr (parseOctetChars_digits hx c hcp)
        · exact Or.inr (parseOctetChars_digits hy c hcp)
        · exact Or.inr (parseOctetChars_digits hz c hcp)
        · exact Or.inr (parseOctetChars_digits hw c hcp)
    have hcolon : ':' ∉ cs := by
      intro hm
      rcases hchars ':' hm with h1 | h2
      · exact absurd h1 (by decide)
      · exact absurd h2 (by decide)
    have hdot : '.' ∈ cs := sep_mem_of_splitOnChar hs
    have hcs_ne : ¬ cs = [] := fun hnil => by
      rw [hnil] at hdot; exact List.not_mem_nil _ hdot
    have hside : parseV6Side true cs = some [a / 65536, a % 65536] := by
      unfold parseV6Side
      rw [if_neg hcs_ne, splitOnChar_eq_self hcolon]
      unfold parseV6Groups
      rw [if_pos hdot, if_pos rfl, h0]
      rfl
    unfold parseIpv6Chars
    rw [splitOnDoubleColon_eq_self cs hcolon]
    show (match parseV6Side true cs with
      | some gs => if gs.length = 8 then some (combineGroups gs) else none
      | none => none) = none
    rw [hside]
    rfl
  · cases h

theorem v4_from_str_excl_v6 {s : String} {n : Ipv6Net}
    (h : Ipv6Net.from_str s = some n) : Ipv4Net.from_str s = none := by
  unfold Ipv6Net.from_str at h
  unfold Ipv4Net.from_str
  cases hs : splitOnChar '/' s.data with
  | nil => rfl
  | cons p1 t1 =>
    cases t1 with
    | nil => rfl
    | cons p2 t2 =>
      cases t2 with
      | nil =>
        rw [hs] at h
        simp only [bind, Option.bind_eq_some, Option.pure_def, Option.some.injEq] at h
        obtain ⟨x, hx, y, hy, _⟩ := h
        show (do
          let addr ← parseIpv4Chars p1
          let pl ← parsePrefixChars 32 p2
          pure (⟨addr, pl⟩ : Ipv4Net)) = none
        cases h4 : parseIpv4Chars p1 with
        | none => rfl
        | some m => rw [parseIpv4Chars_excl_v6 h4] at hx; cases hx
      | cons p3 t3 => rfl

theorem expandEntry_v4 {s : String} {n : Ipv4Net} (h : Ipv4Net.from_str s = some n) :
    expandEntry s =
      (n.hosts.filter (fun a => !(a == 0 || a == 4294967295))).map ipv4ToString := by
  unfold expandEntry
  rw [h]

theorem expandEntry_v6 {s : String} {n : Ipv6Net} (h : Ipv6Net.from_str s = some n) :
    expandEntry s = (n.hosts.filter (fun a => !(a == 0))).map ipv6ToString := by
  unfold expandEntry
  rw [v4_from_str_excl_v6 h, h]

theorem expandEntry_pass {s : String} (h4 : Ipv4Net.from_str s = none)
    (h6 : Ipv6Net.from_str s = none) : expandEntry s = [s] := by
  unfold expandEntry
  rw [h4, h6]

theorem expand_subnets_append (l1 l2 : List String) :
    expand_subnets (l1 ++ l2) = expand_subnets l1 ++ expand_subnets l2 := by
  induction l1 with
  | nil => rfl
  | cons s t ih => simp [expand_subnets, ih]

theorem hosts_eq_specV4 (n : Ipv4Net) : n.hosts = specV4Usable n := by
  unfold Ipv4Net.hosts specV4Usable
  by_cases h : n.prefixLen < 31
  · rw [if_pos h, if_pos (by omega)]
  · rw [if_neg h, if_neg (by omega)]

theorem hosts_eq_specV6 (n : Ipv6Net) : n.hosts = specV6Addresses n := by
  unfold Ipv6Net.hosts specV6Addresses rangeIncl
  have h1 : 1 ≤ v6size n := Nat.one_le_two_pow
  have h2 : v6broadcast n + 1 - v6network n = 2 ^ (128 - n.prefixLen) := by
    unfold v6broadcast
    unfold v6size at h1 ⊢
    omega
  rw [h2]

theorem specV4Usable_filter_vacuous {n : Ipv4Net} (ha : n.addr < 4294967296)
    (hp : n.prefixLen ≤ 32) (h30 : n.prefixLen ≤ 30) :
    (specV4Usable n).filter (fun a => !(a == 0 || a == 4294967295)) = specV4Usable n := by
  have hb := v4network_add_size_le ha hp
  apply List.filter_eq_self.mpr
  intro a hmem
  unfold specV4Usable at hmem
  rw [if_pos h30] at hmem
  have hm := mem_rangeIncl.mp hmem
  have hsz : 4 ≤ v4size n := by
    unfold v4size
    calc (4 : Nat) = 2 ^ 2 := by norm_num
      _ ≤ 2 ^ (32 - n.prefixLen) := Nat.pow_le_pow_right (by omega) (by omega)
  have hbr : v4broadcast n = v4network n + v4size n - 1 := rfl
  have h0 : a ≠ 0 := by omega
  have h1 : a ≠ 4294967295 := by omega
  simp [h0, h1]

theorem expandEntry_v4_ne_nil {s : String} {n : Ipv4Net} (h : Ipv4Net.from_str s = some n)
    (hnd : ¬(n.prefixLen = 32 ∧ (v4network n = 0 ∨ v4network n = 4294967295))) :
    expandEntry s ≠ [] := by
  obtain ⟨ha, hp⟩ := ipv4NetFromStrBounds h
  have hb := v4network_add_size_le ha hp
  rw [expandEntry_v4 h, ne_eq, List.map_eq_nil_iff]
  have hbr : v4broadcast n = v4network n + v4size n - 1 := rfl
  have hsz1 : 1 ≤ v4size n := Nat.one_le_two_pow
  suffices hex : ∃ x, x ∈ n.hosts.filter (fun a => !(a == 0 || a == 4294967295)) by
    obtain ⟨x, hx⟩ := hex
    exact fun hfil => List.not_mem_nil x (hfil ▸ hx)
  by_cases h30 : n.prefixLen ≤ 30
  · have hsz : 4 ≤ v4size n := by
      unfold v4size
      calc (4 : Nat) = 2 ^ 2 := by norm_num
        _ ≤ 2 ^ (32 - n.prefixLen) := Nat.pow_le_pow_right (by omega) (by omega)
    refine ⟨v4network n + 1, List.mem_filter.mpr ⟨?_, ?_⟩⟩
    · unfold Ipv4Net.hosts
      rw [if_pos (by omega)]
      exact mem_rangeIncl.mpr ⟨le_refl _, by omega⟩
    · have e1 : ¬ v4network n = 4294967294 := by omega
      simp [e1]
  · by_cases h31 : n.prefixLen = 31
    · have hsz : v4size n = 2 := by unfold v4size; rw [h31]; norm_num
      have heven : v4network n % 2 = 0 := by
        unfold v4network
        rw [hsz]
        omega
      by_cases hz : v4network n = 0
      · refine ⟨1, List.mem_filter.mpr ⟨?_, by decide⟩⟩
        unfold Ipv4Net.hosts
        rw [if_neg (by omega)]
        exact mem_rangeIncl.mpr ⟨by omega, by omega⟩
      · have hne : v4network n ≠ 4294967295 := by omega
        refine ⟨v4network n, List.mem_filter.mpr ⟨?_, by simp [hz, hne]⟩⟩
        unfold Ipv4Net.hosts
        rw [if_neg (by omega)]
        exact mem_rangeIncl.mpr ⟨le_refl _, by omega⟩
    · have h32 : n.prefixLen = 32 := by omega
      have hsz : v4size n = 1 := by unfold v4size; rw [h32]; norm_num
      have hz0 : v4network n ≠ 0 := fun he => hnd ⟨h32, Or.inl he⟩
      have hz1 : v4network n ≠ 4294967295 := fun he => hnd ⟨h32, Or.inr he⟩
      refine ⟨v4network n, List.mem_filter.mpr ⟨?_, by simp [hz0, hz1]⟩⟩
      unfold Ipv4Net.hosts
      rw [if_neg (by omega)]
      exact mem_rangeIncl.mpr ⟨le_refl _, by omega⟩

theorem expandEntry_v6_ne_nil {s : String} {n : Ipv6Net} (h : Ipv6Net.from_str s = some n)
    (hnd : ¬(n.prefixLen = 128 ∧ v6network n = 0)) : expandEntry s ≠ [] := by
  have hp := ipv6NetFromStrBounds h
  rw [expandEntry_v6 h, ne_eq, List.map_eq_nil_iff]
  have hbr : v6broadcast n = v6network n + v6size n - 1 := rfl
  have hsz1 : 1 ≤ v6size n := Nat.one_le_two_pow
  suffices hex : ∃ x, x ∈ n.hosts.filter (fun a => !(a == 0)) by
    obtain ⟨x, hx⟩ := hex
    exact fun hfil => List.not_mem_nil x (hfil ▸ hx)
  by_cases hz : v6network n = 0
  · have h128 : n.prefixLen ≠ 128 := fun he => hnd ⟨he, hz⟩
    have hsz : 2 ≤ v6size n := by
      unfold v6size
      calc (2 : Nat) = 2 ^ 1 := by norm_num
        _ ≤ 2 ^ (128 - n.prefixLen) := Nat.pow_le_pow_right (by omega) (by omega)
    refine ⟨1, List.mem_filter.mpr ⟨?_, by decide⟩⟩
    unfold Ipv6Net.hosts
    exact mem_rangeIncl.mpr ⟨by omega, by omega⟩
  · refine ⟨v6network n, List.mem_filter.mpr ⟨?_, by simp [hz]⟩⟩
    unfold Ipv6Net.hosts
    exact mem_rangeIncl.mpr ⟨le_refl _, by omega⟩

theorem expandEntry_ne_nil {s : String} (h : degenerateEntry s = false) :
    expandEntry s ≠ [] := by
  unfold degenerateEntry at h
  cases h4 : Ipv4Net.from_str s with
  | some n =>
    simp only [h4] at h
    apply expandEntry_v4_ne_nil h4
    rintro ⟨hpl, hd⟩
    rw [hpl] at h
    rcases hd with hd | hd <;> rw [hd] at h <;> simp at h
  | none =>
    simp only [h4] at h
    cases h6 : Ipv6Net.from_str s with
    | some n =>
      simp only [h6] at h
      apply expandEntry_v6_ne_nil h6
      rintro ⟨hpl, hd⟩
      rw [hpl, hd] at h
      simp at h
    | none =>
      rw [expandEntry_pass h4 h6]
      simp

theorem length_le_expand {l : List String} (h : ∀ s ∈ l, degenerateEntry s = false) :
    l.length ≤ (expand_subnets l).length := by
  induction l with
  | nil => simp [expand_subnets]
  | cons s t ih =>
    have h1 : expandEntry s ≠ [] := expandEntry_ne_nil (h s (List.mem_cons_self _ _))
    have h2 := ih (fun x hx => h x (List.mem_cons_of_mem _ hx))
    have h3 : 1 ≤ (expandEntry s).length := by
      rcases Nat.eq_zero_or_pos (expandEntry s).length with h0 | h0
      · exact absurd (List.length_eq_zero.mp h0) h1
      · exact h0
    show (s :: t).length ≤ (expandEntry s ++ expand_subnets t).length
    rw [List.length_cons, List.length_append]
    omega

/-! Claim theorems. -/

/-- C1 (corrected): is_online filters the host addresses by the configured
family (Both keeps all, V4 only IPv4, V6 only IPv6) and then folds the
per-address probe booleans (true iff the probe outcome is Open; Closed and
Error both fold to false and no probe error escapes the Bool-valued
evaluation): under Any the result is the logical OR over the filtered
addresses; under All it is the logical AND conjoined with the filtered
list being nonempty, since the code short-circuits an empty filtered list
to false although the empty AND-fold is true. -/
theorem c1_is_online_fold (c : TcpPortCheck) (net : NetEnv) (host : Host) :
    c.is_online net host =
      match c.strategy with
      | .Any => (c.filtered host).any
          (fun a => outcomeOf (net ⟨a, c.port⟩ c.timeout) == .opened)
      | .All => !(c.filtered host).isEmpty &&
          (c.filtered host).all
            (fun a => outcomeOf (net ⟨a, c.port⟩ c.timeout) == .opened) := by
  have hop := is_open_port_eq c net
  unfold TcpPortCheck.is_online
  rw [hop]
  cases hst : c.strategy
  · cases hl : (c.filtered host).isEmpty
    · simp [hl]
    · simp [hl, List.isEmpty_iff.mp hl]
  · cases hl : (c.filtered host).isEmpty
    · simp [hl]
    · simp [hl]

/-- C1 counterexample: with the V4 family filter, the All strategy and an
always-accepting network, a host with only an IPv6 address gets the
verdict false, while the AND-fold of the per-address probe booleans over
the (empty) filtered address list is true. -/
theorem c1_counterexample :
    TcpPortCheck.is_online ⟨22, .V4, 1000, .All⟩ (fun _ _ => .ok none) ⟨"dual", [.v6 1]⟩
        = false ∧
      ((TcpPortCheck.filtered ⟨22, .V4, 1000, .All⟩ ⟨"dual", [.v6 1]⟩).all
        (fun a => outcomeOf ((fun (_ : SocketAddr) (_ : Nat) => ConnectResult.ok none)
          ⟨a, 22⟩ 1000) == .opened)) = true :=
  ⟨by decide, by decide⟩

/-- C2: is_port_online returns Ok true when the connection attempt
succeeds, Ok false exactly when the attempt fails with a timeout error,
and propagates every other error to the caller instead of folding it to
false. -/
theorem c2_is_port_online (net : NetEnv) (a : SocketAddr) (t : Nat) :
    (∀ sd, net a t = .ok sd → is_port_online net a t = .ok true) ∧
    (∀ e, net a t = .err e → (is_port_online net a t = .ok false ↔ e.kind = .timedOut)) ∧
    (∀ e, net a t = .err e → e.kind ≠ .timedOut → is_port_online net a t = .error e) := by
  refine ⟨?_, ?_, ?_⟩
  · intro sd h
    unfold is_port_online
    simp [h]
  · intro e h
    unfold is_port_online
    simp only [h]
    by_cases hk : e.kind = .timedOut
    · simp [hk]
    · simp [hk]
  · intro e h hk
    unfold is_port_online
    simp only [h]
    rw [if_neg hk]

/-- C2 witness: a timed-out connect yields Ok false, a refused connect
yields the propagated error. -/
theorem c2_witness :
    is_port_online (fun _ _ => .err ⟨.timedOut⟩) ⟨.v4 1, 80⟩ 100 = .ok false ∧
    is_port_online (fun _ _ => .err ⟨.other 3⟩) ⟨.v4 1, 80⟩ 100 = .error ⟨.other 3⟩ :=
  ⟨((c2_is_port_online _ _ _).2.1 ⟨.timedOut⟩ rfl).mpr rfl,
    (c2_is_port_online _ _ _).2.2 ⟨.other 3⟩ rfl (by decide)⟩

/-- C4: for a host whose family-filtered address list is empty, is_online
returns false for every configuration and every network behavior, in
particular under both strategies. -/
theorem c4_empty_filter_offline (c : TcpPortCheck) (net : NetEnv) (host : Host)
    (h : c.filtered host = []) : c.is_online net host = false := by
  unfold TcpPortCheck.is_online
  simp [h]

/-- C4 witness: an IPv6-only host under the V4 filter and All strategy
with an always-accepting network is reported offline. -/
theorem c4_witness :
    TcpPortCheck.filtered ⟨80, .V4, 5, .All⟩ ⟨"v6only", [.v6 7]⟩ = [] ∧
    TcpPortCheck.is_online ⟨80, .V4, 5, .All⟩ (fun _ _ => .ok none) ⟨"v6only", [.v6 7]⟩
      = false :=
  ⟨by decide, c4_empty_filter_offline _ _ _ (by decide)⟩

/-- C10: whenever the connection attempt succeeds, is_port_online returns
Ok true no matter what the subsequent shutdown of the established stream
returns; a shutdown failure is discarded and never surfaces. -/
theorem c10_shutdown_discarded (net : NetEnv) (a : SocketAddr) (t : Nat)
    (sd : Option IOError) (h : net a t = .ok sd) : is_port_online net a t = .ok true := by
  unfold is_port_online
  simp [h]

/-- C10 witness: a successful connect whose shutdown fails still yields
Ok true. -/
theorem c10_witness :
    is_port_online (fun _ _ => .ok (some ⟨.other 9⟩)) ⟨.v6 2, 443⟩ 50 = .ok true :=
  c10_shutdown_discarded _ _ _ (some ⟨.other 9⟩) rfl

theorem resolve_hosts_length (dns : String → Option (List IpAddr)) (l : List String) :
    (resolve_hosts dns l).length =
      (l.filter (fun s => (Host.from_str dns s).isSome)).length := by
  induction l with
  | nil => rfl
  | cons s t ih =>
    unfold resolve_hosts at ih ⊢
    rw [List.filter_cons]
    cases hf : Host.from_str dns s with
    | none => simp [List.filterMap_cons, hf, ih]
    | some h => simp [List.filterMap_cons, hf, ih]

/-- C8: resolve_hosts returns exactly the hosts of the targets whose
resolution succeeded (membership characterization plus a count identity
showing failed targets are dropped silently and successful ones are never
lost), and an input string that parses as an IP literal produces, under
every dns environment alike, the host carrying that single address and
the original string as its name, so no lookup influences the result. -/
theorem c8_resolve_hosts (dns : String → Option (List IpAddr)) (l : List String) :
    (∀ h : Host, h ∈ resolve_hosts dns l ↔ ∃ s ∈ l, Host.from_str dns s = some h) ∧
    (resolve_hosts dns l).length =
      (l.filter (fun s => (Host.from_str dns s).isSome)).length ∧
    (∀ (s : String) (ip : IpAddr), IpAddr.from_str s = some ip →
      Host.from_str dns s = some { name := s, addresses := [ip] }) := by
  refine ⟨?_, resolve_hosts_length dns l, ?_⟩
  · intro h
    unfold resolve_hosts
    exact List.mem_filterMap
  · intro s ip hip
    unfold Host.from_str
    rw [hip]

/-- C8 witness: an IPv4 literal resolves to itself with no lookup, and the
three-element spec example keeps exactly the two parseable entries. -/
theorem c8_witness :
    Host.from_str (fun _ => none) "127.0.0.1" =
      some { name := "127.0.0.1", addresses := [IpAddr.v4 2130706433] } ∧
    (resolve_hosts (fun _ => none)
      ["127.0.0.1", "::1", "not-a-real-host-xyz.invalid"]).length = 2 := by
  constructor
  · exact (c8_resolve_hosts (fun _ => none) []).2.2 "127.0.0.1" (.v4 2130706433) (by decide)
  · rw [(c8_resolve_hosts (fun _ => none)
      ["127.0.0.1", "::1", "not-a-real-host-xyz.invalid"]).2.1]
    decide

/-- C3 counterexample: if the resolver environment reports success with an
empty address list, Host from_str returns a host with no addresses instead
of signalling a failure, so the invariant as stated does not hold for
every environment behavior the interface admits. -/
theorem c3_counterexample :
    Host.from_str (fun _ => some []) "example.com" =
      some { name := "example.com", addresses := [] } := by
  decide

/-- C3 (corrected): provided the resolver never reports success with an
empty address list (a property the code itself does not enforce), every
successfully constructed host has at least one address; and when the input
is not an IP literal and the lookup fails, from_str signals a failure and
produces no host. -/
theorem c3_nonempty_addresses (dns : String → Option (List IpAddr))
    (hdns : ∀ s l, dns s = some l → l ≠ []) :
    (∀ s h, Host.from_str dns s = some h → h.addresses ≠ []) ∧
    (∀ s, IpAddr.from_str s = none → dns s = none → Host.from_str dns s = none) := by
  constructor
  · intro s h hsome
    unfold Host.from_str at hsome
    cases hip : IpAddr.from_str s with
    | some a =>
      simp only [hip] at hsome
      injection hsome with hsome
      subst hsome
      simp
    | none =>
      simp only [hip] at hsome
      unfold resolve_hostname at hsome
      simp only [hip] at hsome
      cases hd : dns s with
      | none => simp only [hd] at hsome; cases hsome
      | some addrs =>
        simp only [hd] at hsome
        injection hsome with hsome
        subst hsome
        exact hdns s addrs hd
  · intro s hip hd
    unfold Host.from_str resolve_hostname
    simp [hip, hd]

/-- C3 witness: with a resolver that always fails, an unresolvable name
yields no host, and the host built from an IP literal has its nonempty
address list. -/
theorem c3_witness :
    Host.from_str (fun _ => none) "nonexistent.example" = none ∧
    ({ name := "127.0.0.1", addresses := [IpAddr.v4 2130706433] } : Host).addresses ≠ [] := by
  have hd : ∀ s l, (fun (_ : String) => (none : Option (List IpAddr))) s = some l →
      l ≠ [] := by
    intro s l h
    cases h
  exact ⟨(c3_nonempty_addresses _ hd).2 "nonexistent.example" (by decide) rfl,
    (c3_nonempty_addresses _ hd).1 "127.0.0.1" _ (by decide)⟩

/-- C9: no public operation deduplicates: a target repeated n times is
expanded n times by expand_subnets, resolves to n host entries in
resolve_hosts, and an online host repeated n times is returned n times by
collect_online. -/
theorem c9_no_dedup :
    (∀ (s : String) (n : Nat),
      expand_subnets (List.replicate n s) =
        (List.replicate n (expand_subnets [s])).flatten) ∧
    (∀ (dns : String → Option (List IpAddr)) (s : String) (h : Host) (n : Nat),
      Host.from_str dns s = some h →
      resolve_hosts dns (List.replicate n s) = List.replicate n h) ∧
    (∀ (c : TcpPortCheck) (net : NetEnv) (h : Host) (n : Nat),
      c.is_online net h = true →
      c.collect_online net (List.replicate n h) = List.replicate n h) := by
  refine ⟨?_, ?_, ?_⟩
  · intro s n
    induction n with
    | zero => rfl
    | succ m ih => simp [List.replicate_succ, expand_subnets, ih]
  · intro dns s h n hf
    induction n with
    | zero => rfl
    | succ m ih =>
      rw [List.replicate_succ, List.replicate_succ]
      show List.filterMap (Host.from_str dns) (s :: List.replicate m s) = _
      simp only [List.filterMap_cons, hf]
      exact congrArg (List.cons h) ih
  · intro c net h n ho
    induction n with
    | zero => rfl
    | succ m ih =>
      rw [List.replicate_succ]
      show List.filter _ (h :: List.replicate m h) = _
      rw [List.filter_cons, if_pos ho]
      exact congrArg (List.cons h) ih

/-- C9 witness: a doubled IP literal resolves to two identical hosts, a
doubled online host is collected twice, and a doubled subnet entry is
expanded twice. -/
theorem c9_witness :
    resolve_hosts (fun _ => none) (List.replicate 2 "127.0.0.2") =
      List.replicate 2 ({ name := "127.0.0.2", addresses := [IpAddr.v4 2130706434] } : Host) ∧
    TcpPortCheck.collect_online ⟨22, .Both, 1, .Any⟩ (fun _ _ => .ok none)
        (List.replicate 2
          ({ name := "127.0.0.2", addresses := [IpAddr.v4 2130706434] } : Host)) =
      List.replicate 2 ({ name := "127.0.0.2", addresses := [IpAddr.v4 2130706434] } : Host) ∧
    expand_subnets (List.replicate 2 "192.0.2.8/30") =
      (List.replicate 2 (expand_subnets ["192.0.2.8/30"])).flatten := by
  refine ⟨c9_no_dedup.2.1 _ _ _ 2 (by decide), c9_no_dedup.2.2 _ _ _ 2 (by decide),
    c9_no_dedup.1 _ 2⟩

/-- C5 counterexample: per the claim a 31-prefix network yields all of its
addresses with no further exclusion, but for 0.0.0.0/31 the code still
filters out the unspecified address 0.0.0.0 and emits only 0.0.0.1. -/
theorem c5_counterexample :
    Ipv4Net.from_str "0.0.0.0/31" = some ⟨0, 31⟩ ∧
    expand_subnets ["0.0.0.0/31"] = ["0.0.0.1"] ∧
    (specV4Usable ⟨0, 31⟩).map ipv4ToString = ["0.0.0.0", "0.0.0.1"] := by
  refine ⟨by decide, by decide, by decide⟩

/-- C5 (corrected): an entry parsing as an IPv4 network expands to the
usable hosts of the spec (ascending, network and broadcast excluded below
prefix 31, all addresses at prefix 31 and 32) except that the unspecified
address 0.0.0.0 and the limited-broadcast address 255.255.255.255 are
additionally dropped wherever they survive host iteration; for prefixes up
to 30 that extra filter removes nothing, so there the claim holds exactly;
and 192.0.2.0/30 expands to exactly 192.0.2.1 and 192.0.2.2. -/
theorem c5_expand_v4 :
    (∀ (s : String) (n : Ipv4Net), Ipv4Net.from_str s = some n →
      expand_subnets [s] =
        ((specV4Usable n).filter (fun a => !(a == 0 || a == 4294967295))).map ipv4ToString ∧
      (specV4Usable n).Pairwise (· < ·) ∧
      (n.prefixLen ≤ 30 → expand_subnets [s] = (specV4Usable n).map ipv4ToString)) ∧
    expand_subnets ["192.0.2.0/30"] = ["192.0.2.1", "192.0.2.2"] := by
  constructor
  · intro s n h
    obtain ⟨ha, hp⟩ := ipv4NetFromStrBounds h
    have hmain : expand_subnets [s] =
        ((specV4Usable n).filter (fun a => !(a == 0 || a == 4294967295))).map
          ipv4ToString := by
      show expandEntry s ++ [] = _
      rw [List.append_nil, expandEntry_v4 h, hosts_eq_specV4]
    refine ⟨hmain, ?_, ?_⟩
    · unfold specV4Usable
      by_cases h30 : n.prefixLen ≤ 30
      · rw [if_pos h30]; exact rangeIncl_pairwise _ _
      · rw [if_neg h30]; exact rangeIncl_pairwise _ _
    · intro h30
      rw [hmain, specV4Usable_filter_vacuous ha hp h30]
  · decide

/-- C5 witness: a 30-prefix network expands to exactly the spec-level
usable hosts. -/
theorem c5_witness :
    expand_subnets ["10.1.2.0/30"] = (specV4Usable ⟨167838208, 30⟩).map ipv4ToString :=
  (c5_expand_v4.1 "10.1.2.0/30" ⟨167838208, 30⟩ (by decide)).2.2 (by decide)

/-- C6 counterexample: the single-entry list 0.0.0.0/32 expands to the
empty list, so the output can be shorter than the input. -/
theorem c6_counterexample :
    expand_subnets ["0.0.0.0/32"] = [] ∧
    (expand_subnets ["0.0.0.0/32"]).length < (["0.0.0.0/32"] : List String).length := by
  refine ⟨by decide, by decide⟩

/-- C6 (corrected): expand_subnets is a total function; every entry that
parses as neither an IPv4 nor an IPv6 CIDR network is passed through
unchanged in its position; and the output is at least as long as the input
provided no entry is one of the three degenerate networks whose whole
expansion is filtered away (0.0.0.0/32, 255.255.255.255/32 and the IPv6
all-zero single-address network). -/
theorem c6_total_passthrough :
    (∀ (l1 l2 : List String) (s : String),
      Ipv4Net.from_str s = none → Ipv6Net.from_str s = none →
      expand_subnets (l1 ++ s :: l2) = expand_subnets l1 ++ s :: expand_subnets l2) ∧
    (∀ l : List String, (∀ s ∈ l, degenerateEntry s = false) →
      l.length ≤ (expand_subnets l).length) := by
  constructor
  · intro l1 l2 s h4 h6
    rw [expand_subnets_append]
    congr 1
    show expandEntry s ++ expand_subnets l2 = s :: expand_subnets l2
    rw [expandEntry_pass h4 h6]
    rfl
  · exact fun l h => length_le_expand h

/-- C6 witness: a hostname entry passes through in position, and a list
with no degenerate entry is not shortened. -/
theorem c6_witness :
    expand_subnets (["example.com"] ++ "host.local" :: []) =
      expand_subnets ["example.com"] ++ "host.local" :: expand_subnets [] ∧
    (["example.org", "10.0.0.0/30"] : List String).length ≤
      (expand_subnets ["example.org", "10.0.0.0/30"]).length := by
  constructor
  · exact c6_total_passthrough.1 ["example.com"] [] "host.local" (by decide) (by decide)
  · apply c6_total_passthrough.2
    intro s hs
    simp only [List.mem_cons, List.not_mem_nil, or_false] at hs
    rcases hs with rfl | rfl
    · decide
    · decide

/-- C7: an entry parsing as an IPv6 network expands to every address of
the network in ascending order with only the unspecified all-zero address
excluded and nothing else; in particular fd00::/126 yields all four of its
addresses including the network address and the highest address, and
the all-zero network ::/126 loses only the unspecified address. -/
theorem c7_expand_v6 :
    (∀ (s : String) (n : Ipv6Net), Ipv6Net.from_str s = some n →
      expand_subnets [s] =
        ((specV6Addresses n).filter (fun a => !(a == 0))).map ipv6ToString) ∧
    expand_subnets ["fd00::/126"] = ["fd00::", "fd00::1", "fd00::2", "fd00::3"] ∧
    expand_subnets ["::/126"] = ["::1", "::2", "::3"] := by
  refine ⟨?_, by decide, by decide⟩
  intro s n h
  show expandEntry s ++ [] = _
  rw [List.append_nil, expandEntry_v6 h, hosts_eq_specV6]

/-- C7 witness: the general statement applied to fd00::/126. -/
theorem c7_witness :
    expand_subnets ["fd00::/126"] =
      ((specV6Addresses ⟨64768 * 2 ^ 112, 126⟩).filter (fun a => !(a == 0))).map
        ipv6ToString :=
  c7_expand_v6.1 "fd00::/126" ⟨64768 * 2 ^ 112, 126⟩ (by decide)
